import Mathlib

/-!
Verification development for the clyngor answer-stream transformer
(`clyngor/answers.py`) and the predicate-to-object decoder exercised by
`clyngor/test/test_decoder.py`.

Solver terms (predicate names and argument values) are opaque, comparable,
hashable tokens; they are modelled as natural numbers.  A raw answer set is a
list of `(predicate, argument list)` pairs, exactly the shape `Answers.__iter__`
consumes.

Python's `frozenset` materialises distinct elements in an arbitrary,
hash-dependent iteration order.  That arbitrariness is modelled by an explicit
`shuffle` parameter applied to the deduplicated list; theorems that depend on
the set semantics assume only that the shuffle permutes its input, and
hyperproperties quantify over several shuffles.
-/

namespace Clyngor

/-- A raw atom delivered by the solver: `(predicate, argument list)`. -/
abbrev RawAtom := Nat × List Nat

/-- A raw answer set: one solver model, an iterable of raw atoms. -/
abbrev RawAnswerSet := List RawAtom

/-- The argument representation attached to a predicate after the first
transformation step of `Answers.__iter__`: either the first argument alone
(`args[0]`, under `first_arg_only` with non-empty arguments) or a tuple of
arguments (`tuple(args)`, or the empty-tuple marker `()`). -/
inductive ArgRep where
  | one : Nat → ArgRep
  | tup : List Nat → ArgRep
deriving DecidableEq, Repr

/-- An element of a top-level transformed answer-set collection: either a bare
`(pred, args)` pair or an `as_pyasp.Atom(pred, args)` value object. -/
inductive Elem where
  | pair : Nat → ArgRep → Elem
  | obj : Nat → ArgRep → Elem
deriving DecidableEq, Repr

/-- An element of one predicate's bucket under `by_predicate`: either the bare
argument representation or an `as_pyasp.Atom(pred, args)` value object. -/
inductive BElem where
  | rep : ArgRep → BElem
  | obj : Nat → ArgRep → BElem
deriving DecidableEq, Repr

/-- The predicate of a top-level element (`pred` in `for pred, args in ...`). -/
def Elem.predOf : Elem → Nat
  | .pair p _ => p
  | .obj p _ => p

/-- The argument representation of a top-level element. -/
def Elem.argOf : Elem → ArgRep
  | .pair _ a => a
  | .obj _ a => a

/-- Sort key of an argument representation: Python compares the values
themselves (and raises on mixed single-value/tuple comparisons); the model
totalizes that comparison lexicographically via a constructor tag, single
values before tuples.  Only determinism of the order matters to the claims:
no collection this pipeline sorts mixes the two constructors unless the
Python original would raise `TypeError`. -/
def ArgRep.key : ArgRep → Lex (Bool × Lex (Nat × List Nat))
  | .one a => toLex (false, toLex (a, []))
  | .tup l => toLex (true, toLex (0, l))

/-- Total comparison of argument representations. -/
def ArgRep.ble (x y : ArgRep) : Bool :=
  decide (x.key ≤ y.key)

/-- Sort key of a top-level element: constructor tag, predicate, then
argument representation — on bare pairs this is exactly Python's tuple
comparison of `(pred, args)`. -/
def Elem.key : Elem → Lex (Bool × Lex (Nat × Lex (Bool × Lex (Nat × List Nat))))
  | .pair p a => toLex (false, toLex (p, a.key))
  | .obj p a => toLex (true, toLex (p, a.key))

/-- Total comparison of top-level elements, used by the `sorted` builder. -/
def Elem.ble (x y : Elem) : Bool :=
  decide (x.key ≤ y.key)

/-- Sort key of a bucket element: constructor tag, predicate (0 for bare
representations), then argument representation. -/
def BElem.key : BElem → Lex (Bool × Lex (Nat × Lex (Bool × Lex (Nat × List Nat))))
  | .rep a => toLex (false, toLex (0, a.key))
  | .obj p a => toLex (true, toLex (p, a.key))

/-- Total comparison of bucket elements, used by the `sorted` builder. -/
def BElem.ble (x y : BElem) : Bool :=
  decide (x.key ≤ y.key)

/-- The collection builder of `Answers.__iter__`:
`sorted_tuple = lambda it: tuple(sorted(it))` when `_sorted` is set (kept
duplicates, deterministic order), `frozenset` otherwise (distinct elements in
an arbitrary iteration order, modelled by `sh` applied after deduplication). -/
def builder {α : Type} [DecidableEq α] (isSorted : Bool) (sh : List α → List α)
    (ble : α → α → Bool) (l : List α) : List α :=
  if isSorted then l.insertionSort (fun a b => ble a b = true) else sh l.dedup

/-- `args[0] if args else ()`: the first argument, or the empty-tuple marker. -/
def firstArgRep (args : List Nat) : ArgRep :=
  match args with
  | [] => ArgRep.tup []
  | a :: _ => ArgRep.one a

/-- The argument representation an atom receives for a given `first_arg_only`
flag value. -/
def repOfRaw (fao : Bool) (args : List Nat) : ArgRep :=
  if fao then firstArgRep args else ArgRep.tup args

/-- The per-atom transformation step of `Answers.__iter__`: the generator
feeding the top-level builder, branching on `self._first_arg_only`. -/
def step1 (fao : Bool) (raw : RawAnswerSet) : List Elem :=
  if fao then raw.map (fun pa => Elem.pair pa.1 (firstArgRep pa.2))
  else raw.map (fun pa => Elem.pair pa.1 (ArgRep.tup pa.2))

/-- `mapping[pred].add(args)` on one bucket: Python set insertion. -/
def bucketAdd (bs : List BElem) (b : BElem) : List BElem :=
  if b ∈ bs then bs else bs ++ [b]

/-- One iteration of the grouping loop on the `defaultdict(set)` mapping:
add `b` to the bucket of key `q`, creating the bucket if absent. -/
def mappingAdd : List (Nat × List BElem) → Nat → BElem → List (Nat × List BElem)
  | [], q, b => [(q, [b])]
  | kv :: r, q, b =>
    if kv.1 = q then (kv.1, bucketAdd kv.2 b) :: r else kv :: mappingAdd r q b

/-- `args = as_pyasp.Atom(pred, args)` when `_as_pyasp` is set, inside the
grouping loop; otherwise the bare representation enters the bucket. -/
def bwrap (pyasp : Bool) (e : Elem) : BElem :=
  if pyasp then BElem.obj e.predOf e.argOf else BElem.rep e.argOf

/-- The grouping loop of `Answers.__iter__`: fold the built answer set into
the `defaultdict(set)` mapping (association list in insertion order). -/
def buildMapping (pyasp : Bool) : List Elem → List (Nat × List BElem) → List (Nat × List BElem)
  | [], m => m
  | e :: r, m => buildMapping pyasp r (mappingAdd m e.predOf (bwrap pyasp e))

/-- `as_pyasp.Atom(*atom)`: top-level wrapping in the non-grouping branch. -/
def wrapTop (e : Elem) : Elem :=
  Elem.obj e.predOf e.argOf

/-- A transformed answer set: either a top-level collection (frozenset or
sorted tuple) or, under `by_predicate`, a dict from predicate to bucket. -/
inductive Out where
  | coll : List Elem → Out
  | dict : List (Nat × List BElem) → Out
deriving DecidableEq, Repr

/-- Association-list lookup, the model of Python dict access (keys are unique
in every mapping this development builds). -/
def alookup {α : Type} (p : Nat) : List (Nat × α) → Option α
  | [] => none
  | kv :: r => if kv.1 = p then some kv.2 else alookup p r

/-- The body of `Answers.__iter__` for a single raw answer set, given the
builder choice (`isSorted`, captured with `builder` at generator start) and
the three per-item flags.  `shE` and `shB` model frozenset iteration order at
the top level and inside buckets respectively. -/
def transformOne (shE : List Elem → List Elem) (shB : List BElem → List BElem)
    (isSorted fao group pyasp : Bool) (raw : RawAnswerSet) : Out :=
  let answerSet := builder isSorted shE Elem.ble (step1 fao raw)
  if group then
    Out.dict ((buildMapping pyasp answerSet []).map
      (fun kv => (kv.1, builder isSorted shB BElem.ble kv.2)))
  else if pyasp then
    Out.coll (builder isSorted shE Elem.ble (answerSet.map wrapTop))
  else
    Out.coll answerSet

/-- Membership in the built collection is membership in the generator's
output, for any shuffle that permutes its input. -/
lemma builder_true {α : Type} [DecidableEq α] (sh : List α → List α)
    (ble : α → α → Bool) (l : List α) :
    builder true sh ble l = l.insertionSort (fun a b => ble a b = true) := rfl

/-- Membership in the built collection is membership in the generator's
output, for any shuffle that permutes its input. -/
lemma mem_builder {α : Type} [DecidableEq α] {sh : List α → List α}
    (h : ∀ l', (sh l').Perm l') (s : Bool) (ble : α → α → Bool) (l : List α) (a : α) :
    a ∈ builder s sh ble l ↔ a ∈ l := by
  cases s
  · exact ((h l.dedup).mem_iff).trans List.mem_dedup
  · rw [builder_true]; exact List.mem_insertionSort _

/-- The frozenset builder yields distinct elements. -/
lemma nodup_builder_false {α : Type} [DecidableEq α] {sh : List α → List α}
    (h : ∀ l', (sh l').Perm l') (ble : α → α → Bool) (l : List α) :
    (builder false sh ble l).Nodup :=
  ((h l.dedup).nodup_iff).mpr (List.nodup_dedup l)

/-- Elements of `step1` are the per-atom transforms of the raw atoms. -/
lemma mem_step1 {fao : Bool} {raw : RawAnswerSet} {e : Elem} :
    e ∈ step1 fao raw ↔ ∃ pa ∈ raw, e = Elem.pair pa.1 (repOfRaw fao pa.2) := by
  cases fao <;> simp [step1, repOfRaw, List.mem_map, eq_comm]

/-- Lookup commutes with mapping a function over the values. -/
lemma alookup_map {α β : Type} (f : α → β) (p : Nat) (m : List (Nat × α)) :
    alookup p (m.map (fun kv => (kv.1, f kv.2))) = (alookup p m).map f := by
  induction m with
  | nil => rfl
  | cons kv r ih => by_cases h : kv.1 = p <;> simp [alookup, h, ih]

/-- Bucket update seen through an optional lookup result. -/
def bucketAddO : Option (List BElem) → BElem → List BElem
  | none, b => [b]
  | some bs, b => bucketAdd bs b

/-- Membership in an updated bucket. -/
lemma mem_bucketAddO {o : Option (List BElem)} {b b' : BElem} :
    b' ∈ bucketAddO o b ↔ (∃ bs, o = some bs ∧ b' ∈ bs) ∨ b' = b := by
  cases o with
  | none => simp [bucketAddO]
  | some bs =>
    by_cases hb : b ∈ bs
    · simp only [bucketAddO, bucketAdd, if_pos hb]
      constructor
      · intro h; exact Or.inl ⟨bs, rfl, h⟩
      · rintro (⟨bs', hbs', h⟩ | rfl)
        · cases hbs'; exact h
        · exact hb
    · simp only [bucketAddO, bucketAdd, if_neg hb, List.mem_append, List.mem_singleton]
      constructor
      · rintro (h | rfl)
        · exact Or.inl ⟨bs, rfl, h⟩
        · exact Or.inr rfl
      · rintro (⟨bs', hbs', h⟩ | rfl)
        · cases hbs'; exact Or.inl h
        · exact Or.inr rfl

/-- Effect of one mapping update on lookups. -/
lemma alookup_mappingAdd (m : List (Nat × List BElem)) (q : Nat) (b : BElem) (p : Nat) :
    alookup p (mappingAdd m q b) =
      if q = p then some (bucketAddO (alookup p m) b) else alookup p m := by
  induction m with
  | nil =>
    by_cases h : q = p <;> simp [mappingAdd, alookup, bucketAddO, h]
  | cons kv r ih =>
    by_cases h1 : kv.1 = q
    · by_cases h2 : kv.1 = p
      · have hqp : q = p := h1 ▸ h2
        simp [mappingAdd, alookup, h1, h2, hqp, bucketAddO]
      · have hqp : ¬ q = p := fun h => h2 (h1.trans h)
        simp [mappingAdd, alookup, h1, h2, hqp]
    · by_cases h2 : kv.1 = p
      · have hqp : ¬ q = p := fun h => h1 (h2.trans h.symm)
        have hpq : ¬ p = q := fun h => hqp h.symm
        simp [mappingAdd, alookup, h1, h2, hqp, hpq]
      · simp [mappingAdd, alookup, h1, h2, ih]

/-- Presence of a key after the grouping fold: a key is present when it was
present in the accumulator or some element carries it. -/
lemma alookup_buildMapping_isSome (pyasp : Bool) (l : List Elem)
    (m : List (Nat × List BElem)) (p : Nat) :
    (alookup p (buildMapping pyasp l m)).isSome ↔
      (alookup p m).isSome ∨ ∃ e ∈ l, e.predOf = p := by
  induction l generalizing m with
  | nil => simp [buildMapping]
  | cons e r ih =>
    rw [buildMapping, ih]
    rw [alookup_mappingAdd]
    by_cases h : e.predOf = p
    · simp [h]
    · simp [h]

/-- Contents of a bucket after the grouping fold: exactly the accumulator's
bucket extended with the wrapped representations of the matching elements. -/
lemma mem_buildMapping_bucket (pyasp : Bool) (l : List Elem) :
    ∀ (m : List (Nat × List BElem)) (p : Nat) (bs : List BElem),
      alookup p (buildMapping pyasp l m) = some bs →
      ∀ b, b ∈ bs ↔
        (∃ bs₀, alookup p m = some bs₀ ∧ b ∈ bs₀) ∨
          ∃ e ∈ l, e.predOf = p ∧ bwrap pyasp e = b := by
  induction l with
  | nil =>
    intro m p bs h b
    simp only [buildMapping] at h
    simp [h]
  | cons e r ih =>
    intro m p bs h b
    rw [buildMapping] at h
    rw [ih _ p bs h b]
    by_cases hp : e.predOf = p
    · rw [alookup_mappingAdd]
      simp only [hp, if_pos]
      constructor
      · rintro (⟨bs₀, hbs₀, hb⟩ | ⟨e', he', hpe', hwe'⟩)
        · cases hbs₀
          rcases mem_bucketAddO.mp hb with (⟨bs₁, hbs₁, hb₁⟩ | rfl)
          · exact Or.inl ⟨bs₁, hbs₁, hb₁⟩
          · exact Or.inr ⟨e, List.mem_cons_self e r, hp, rfl⟩
        · exact Or.inr ⟨e', List.mem_cons_of_mem e he', hpe', hwe'⟩
      · rintro (⟨bs₀, hbs₀, hb⟩ | ⟨e', he', hpe', hwe'⟩)
        · exact Or.inl ⟨_, rfl, mem_bucketAddO.mpr (Or.inl ⟨bs₀, hbs₀, hb⟩)⟩
        · rcases List.mem_cons.mp he' with rfl | he''
          · exact Or.inl ⟨_, rfl, mem_bucketAddO.mpr (Or.inr hwe'.symm)⟩
          · exact Or.inr ⟨e', he'', hpe', hwe'⟩
    · rw [alookup_mappingAdd]
      simp only [hp, if_neg]
      constructor
      · rintro (hl | ⟨e', he', hpe', hwe'⟩)
        · exact Or.inl hl
        · exact Or.inr ⟨e', List.mem_cons_of_mem e he', hpe', hwe'⟩
      · rintro (hl | ⟨e', he', hpe', hwe'⟩)
        · exact Or.inl hl
        · rcases List.mem_cons.mp he' with rfl | he''
          · exact absurd hpe' hp
          · exact Or.inr ⟨e', he'', hpe', hwe'⟩

/-- The element a raw atom contributes to a non-grouped transformed answer
set, for the given `as_pyasp` and `first_arg_only` flag values. -/
def topElem (pyasp fao : Bool) (pa : RawAtom) : Elem :=
  if pyasp then Elem.obj pa.1 (repOfRaw fao pa.2) else Elem.pair pa.1 (repOfRaw fao pa.2)

/-- The bucket element a raw atom contributes under `by_predicate`, for the
given `as_pyasp` and `first_arg_only` flag values. -/
def bwrapRaw (pyasp fao : Bool) (p : Nat) (args : List Nat) : BElem :=
  if pyasp then BElem.obj p (repOfRaw fao args) else BElem.rep (repOfRaw fao args)

/-- Characterization of the non-grouped output: a top-level collection whose
members are exactly the per-atom transforms of the raw atoms. -/
lemma transform_coll_char (shE : List Elem → List Elem) (shB : List BElem → List BElem)
    (hE : ∀ l, (shE l).Perm l) (s fao pyasp : Bool) (raw : RawAnswerSet) :
    ∃ L, transformOne shE shB s fao false pyasp raw = Out.coll L ∧
      ∀ e, e ∈ L ↔ ∃ pa ∈ raw, e = topElem pyasp fao pa := by
  cases pyasp with
  | false =>
    refine ⟨builder s shE Elem.ble (step1 fao raw), rfl, fun e => ?_⟩
    rw [mem_builder hE, mem_step1]
    simp [topElem]
  | true =>
    refine ⟨_, rfl, fun e => ?_⟩
    rw [mem_builder hE, List.mem_map]
    constructor
    · rintro ⟨e', he', rfl⟩
      rcases (mem_builder hE s Elem.ble (step1 fao raw) e').mp he' with he''
      rcases mem_step1.mp he'' with ⟨pa, hpa, rfl⟩
      exact ⟨pa, hpa, rfl⟩
    · rintro ⟨pa, hpa, rfl⟩
      refine ⟨Elem.pair pa.1 (repOfRaw fao pa.2), ?_, rfl⟩
      exact (mem_builder hE s Elem.ble (step1 fao raw) _).mpr
        (mem_step1.mpr ⟨pa, hpa, rfl⟩)

/-- Characterization of the grouped output: a dict whose keys are exactly the
predicates occurring in the raw answer set and whose buckets hold exactly the
(possibly wrapped) argument representations of the matching atoms. -/
lemma transform_dict_char (shE : List Elem → List Elem) (shB : List BElem → List BElem)
    (hE : ∀ l, (shE l).Perm l) (hB : ∀ l, (shB l).Perm l)
    (s fao pyasp : Bool) (raw : RawAnswerSet) :
    ∃ M, transformOne shE shB s fao true pyasp raw = Out.dict M ∧
      (∀ p, (alookup p M).isSome ↔ ∃ pa ∈ raw, pa.1 = p) ∧
      (∀ p bs, alookup p M = some bs →
        ∀ b, b ∈ bs ↔ ∃ pa ∈ raw, pa.1 = p ∧ b = bwrapRaw pyasp fao p pa.2) := by
  refine ⟨_, rfl, fun p => ?_, fun p bs hbs b => ?_⟩
  · rw [alookup_map]
    rw [Option.isSome_map']
    rw [alookup_buildMapping_isSome]
    simp only [alookup, Option.isSome_none, Bool.false_eq_true, false_or]
    constructor
    · rintro ⟨e, he, hpe⟩
      rcases mem_step1.mp ((mem_builder hE s Elem.ble (step1 fao raw) e).mp he) with
        ⟨pa, hpa, rfl⟩
      exact ⟨pa, hpa, hpe⟩
    · rintro ⟨pa, hpa, hpe⟩
      refine ⟨Elem.pair pa.1 (repOfRaw fao pa.2), ?_, hpe⟩
      exact (mem_builder hE s Elem.ble (step1 fao raw) _).mpr (mem_step1.mpr ⟨pa, hpa, rfl⟩)
  · rw [alookup_map] at hbs
    rcases Option.map_eq_some'.mp hbs with ⟨bs₀, hbs₀, rfl⟩
    rw [mem_builder hB]
    rw [mem_buildMapping_bucket _ _ _ _ _ hbs₀ b]
    constructor
    · rintro (⟨bs₁, hbs₁, hb₁⟩ | ⟨e, he, hpe, hwe⟩)
      · simp [alookup] at hbs₁
      · rcases mem_step1.mp ((mem_builder hE s Elem.ble (step1 fao raw) e).mp he) with
          ⟨pa, hpa, rfl⟩
        refine ⟨pa, hpa, hpe, ?_⟩
        rw [← hwe, ← hpe]
        cases pyasp <;> rfl
    · rintro ⟨pa, hpa, hpe, hwe⟩
      refine Or.inr ⟨Elem.pair pa.1 (repOfRaw fao pa.2),
        (mem_builder hE s Elem.ble (step1 fao raw) _).mpr (mem_step1.mpr ⟨pa, hpa, rfl⟩),
        hpe, ?_⟩
      rw [hwe, ← hpe]
      cases pyasp <;> rfl

/-- The four boolean presentation flags of `Answers.__init__`. -/
structure Flags where
  first_arg_only : Bool := false
  group_atoms : Bool := false
  as_pyasp : Bool := false
  sorted : Bool := false
deriving DecidableEq, Repr

/-- The `Answers` proxy: the stored source iterator (`self._answers`, the
still-unconsumed raw answer sets) and the flag state. -/
structure Answers where
  answers : List RawAnswerSet
  flags : Flags := {}
deriving DecidableEq, Repr

/-- Property `first_arg_only`: sets `_first_arg_only` and returns `self`. -/
def Answers.first_arg_only (s : Answers) : Answers :=
  { s with flags := { s.flags with first_arg_only := true } }

/-- Property `by_predicate`: sets `_group_atoms` and returns `self`. -/
def Answers.by_predicate (s : Answers) : Answers :=
  { s with flags := { s.flags with group_atoms := true } }

/-- Property `as_pyasp`: sets `_as_pyasp` and returns `self`. -/
def Answers.as_pyasp (s : Answers) : Answers :=
  { s with flags := { s.flags with as_pyasp := true } }

/-- Property `sorted`: sets `_sorted` and returns `self`. -/
def Answers.sorted (s : Answers) : Answers :=
  { s with flags := { s.flags with sorted := true } }

/-- A complete traversal of `Answers.__iter__` with the flag state held fixed
throughout: every stored answer set is transformed and yielded, and the
underlying iterator is drained (`answers := []` afterwards). -/
def Answers.iterAll (shE : List Elem → List Elem) (shB : List BElem → List BElem)
    (s : Answers) : List Out × Answers :=
  (s.answers.map (fun raw =>
      transformOne shE shB s.flags.sorted s.flags.first_arg_only
        s.flags.group_atoms s.flags.as_pyasp raw),
   { s with answers := [] })

/-- `Answers.__next__`, i.e. `next(iter(self))`: a fresh generator pulls one
raw answer set from the stored iterator, transforms it under the current flag
state, and yields it; `StopIteration` (here `none`) when the source is
exhausted. -/
def Answers.nextAnswer (shE : List Elem → List Elem) (shB : List BElem → List BElem)
    (s : Answers) : Option (Out × Answers) :=
  match s.answers with
  | [] => none
  | raw :: rest =>
    some (transformOne shE shB s.flags.sorted s.flags.first_arg_only
            s.flags.group_atoms s.flags.as_pyasp raw,
          { s with answers := rest })

/-- One traversal of the generator body of `Answers.__iter__` under a schedule
of flag states: `flagsAt k` is the flag state current when the `k`-th answer
set is pulled (the consumer may mutate flags between pulls).  The generator
binds `builder` once, when its body first runs, so the `sorted` choice is the
`capturedSorted` argument; `self._first_arg_only`, `self._group_atoms` and
`self._as_pyasp` are read afresh inside the loop for every answer set. -/
def runFrom (shE : List Elem → List Elem) (shB : List BElem → List BElem)
    (capturedSorted : Bool) (flagsAt : Nat → Flags) : Nat → List RawAnswerSet → List Out
  | _, [] => []
  | k, raw :: rest =>
    transformOne shE shB capturedSorted (flagsAt k).first_arg_only
        (flagsAt k).group_atoms (flagsAt k).as_pyasp raw
      :: runFrom shE shB capturedSorted flagsAt (k + 1) rest

/-- A full traversal under a schedule of flag states: the generator body first
runs at the first pull, so `builder` captures the `sorted` flag current then. -/
def runTraversal (shE : List Elem → List Elem) (shB : List BElem → List BElem)
    (raws : List RawAnswerSet) (flagsAt : Nat → Flags) : List Out :=
  runFrom shE shB (flagsAt 0).sorted flagsAt 0 raws

instance : IsTotal Elem (fun a b => Elem.ble a b = true) :=
  ⟨fun a b => by
    simp only [Elem.ble, decide_eq_true_eq]
    exact le_total a.key b.key⟩

instance : IsTrans Elem (fun a b => Elem.ble a b = true) :=
  ⟨fun a b c hab hbc => by
    simp only [Elem.ble, decide_eq_true_eq] at hab hbc ⊢
    exact le_trans hab hbc⟩

instance : IsTotal BElem (fun a b => BElem.ble a b = true) :=
  ⟨fun a b => by
    simp only [BElem.ble, decide_eq_true_eq]
    exact le_total a.key b.key⟩

instance : IsTrans BElem (fun a b => BElem.ble a b = true) :=
  ⟨fun a b c hab hbc => by
    simp only [BElem.ble, decide_eq_true_eq] at hab hbc ⊢
    exact le_trans hab hbc⟩

/-- The sorted-tuple builder produces a list sorted by its comparison. -/
lemma sorted_builder_true {α : Type} [DecidableEq α] (sh : List α → List α)
    (ble : α → α → Bool) [IsTotal α (fun a b => ble a b = true)]
    [IsTrans α (fun a b => ble a b = true)] (l : List α) :
    (builder true sh ble l).Sorted (fun a b => ble a b = true) := by
  rw [builder_true]
  exact List.sorted_insertionSort _ l

/-- Observational set-equality of two transformed answer sets: same members
at the top level, or same keys and same bucket members under grouping.  This
is what two runs differing only in hash order have in common. -/
def OutSetEq : Out → Out → Prop
  | Out.coll l, Out.coll l' => ∀ e, e ∈ l ↔ e ∈ l'
  | Out.dict m, Out.dict m' =>
    (∀ p, (alookup p m).isSome ↔ (alookup p m').isSome) ∧
      (∀ p bs bs', alookup p m = some bs → alookup p m' = some bs' →
        ∀ b, b ∈ bs ↔ b ∈ bs')
  | _, _ => False

/-- The decoded object built by the test decoder `ConceptList`
(`clyngor/test/test_decoder.py`): an identifier with two frozensets. -/
structure ConceptList where
  id : Nat
  extent : Finset Nat
  intent : Finset Nat
deriving DecidableEq

/-- The `ConceptList` constructor from `clyngor/test/test_decoder.py`:
`self.id = int(concept[0])`, and the extent and intent are the frozensets of
second components of the received argument pairs whose first component equals
the id. -/
def ConceptList.make (concept : List Nat) (extent intent : List (Nat × Nat)) : ConceptList :=
  let i := concept.headD 0
  { id := i
    extent := ((extent.filter (fun pr => pr.1 == i)).map Prod.snd).toFinset
    intent := ((intent.filter (fun pr => pr.1 == i)).map Prod.snd).toFinset }

/-- The `(identifier, value)` unpacking of a binary atom's argument tuple. -/
def argPair : List Nat → Option (Nat × Nat)
  | [nb, arg] => some (nb, arg)
  | _ => none

/-- All argument pairs of atoms of predicate `pred` sharing group key `k`. -/
def keyedPairs (pred : String) (k : Nat) (atoms : List (String × List Nat)) :
    List (Nat × Nat) :=
  atoms.filterMap (fun a =>
    if a.1 = pred then
      match argPair a.2 with
      | some pr => if pr.1 = k then some pr else none
      | none => none
    else none)

/-- Modelled from the spec: the decoder module itself (`clyngor.decoder`,
providing `decode`) is not among the available source files — only its test
is.  Per §4.2, atoms of one answer set are associated into construction
groups by a shared leading-identifier key; the `concept` parameter declares
arity "exactly one", so each key carrying a `concept` atom triggers exactly
one construction once the stream is drained, and the "all"-arity `extent` and
`intent` parameters accumulate every matching atom sharing that key.
Predicates with no matching decoder entry are silently ignored. -/
def decodeConceptLists (atoms : List (String × List Nat)) : List ConceptList :=
  let keys := (atoms.filterMap (fun a => if a.1 = "concept" then a.2.head? else none)).dedup
  keys.map (fun k =>
    ConceptList.make
      (((atoms.filter (fun a => a.1 == "concept" && a.2.head? == some k)).map Prod.snd).headD [])
      (keyedPairs "extent" k atoms)
      (keyedPairs "intent" k atoms))

/-- Claim C8: given atoms `concept(0)`, `extent(0,a)`, `extent(0,b)`,
`intent(0,c)`, `intent(0,d)` (term values encoded as a=1, b=2, c=3, d=4) and
the `ConceptList` decoder — exactly one `concept` and all matching
`extent`/`intent` per id — decoding yields exactly one constructed object,
with id 0, extent `{a,b}` and intent `{c,d}`. -/
theorem decoder_arity_concepts :
    decodeConceptLists
        [("concept", [0]), ("extent", [0, 1]), ("extent", [0, 2]),
         ("intent", [0, 3]), ("intent", [0, 4])] =
      [{ id := 0, extent := {1, 2}, intent := {3, 4} }] := by
  decide

/-- Claim C10: without `sorted`, a transformed answer set is materialized as
a set of distinct elements, so transforms mapping distinct atoms to equal
outputs merge them: under `first_arg_only`, the atoms `p(x,y)` and `p(x,z)`
(encoded `(0,[1,2])` and `(0,[1,3])`) collapse into the single element
`(p, x)`, and the output has strictly fewer elements than the raw answer set
had atoms. -/
theorem unsorted_set_merges_equal_transforms
    (shE : List Elem → List Elem) (shB : List BElem → List BElem)
    (hE : ∀ l, (shE l).Perm l) (fao pyasp : Bool) (raw : RawAnswerSet) :
    (∃ L, transformOne shE shB false fao false pyasp raw = Out.coll L ∧ L.Nodup) ∧
    transformOne shE shB false true false false [(0, [1, 2]), (0, [1, 3])] =
      Out.coll [Elem.pair 0 (ArgRep.one 1)] ∧
    [Elem.pair 0 (ArgRep.one 1)].length <
      ([(0, [1, 2]), (0, [1, 3])] : RawAnswerSet).length := by
  refine ⟨?_, ?_, by decide⟩
  · cases pyasp with
    | false => exact ⟨_, rfl, nodup_builder_false hE _ _⟩
    | true => exact ⟨_, rfl, nodup_builder_false hE _ _⟩
  · have h2 : (step1 true [(0, [1, 2]), (0, [1, 3])]).dedup =
        [Elem.pair 0 (ArgRep.one 1)] := by decide
    show Out.coll (builder false shE Elem.ble (step1 true [(0, [1, 2]), (0, [1, 3])])) = _
    rw [builder, if_neg (by simp)]
    rw [h2]
    rw [List.perm_singleton.mp (hE [Elem.pair 0 (ArgRep.one 1)])]

/-- Claim C10 witness: the statement at the identity shuffles. -/
theorem unsorted_set_merges_equal_transforms_witness :
    (∃ L, transformOne id id false true false false [(0, [1, 2]), (0, [1, 3])] =
        Out.coll L ∧ L.Nodup) ∧
    transformOne id id false true false false [(0, [1, 2]), (0, [1, 3])] =
      Out.coll [Elem.pair 0 (ArgRep.one 1)] ∧
    [Elem.pair 0 (ArgRep.one 1)].length <
      ([(0, [1, 2]), (0, [1, 3])] : RawAnswerSet).length :=
  unsorted_set_merges_equal_transforms id id (fun l => List.Perm.refl l) true false
    [(0, [1, 2]), (0, [1, 3])]

/-- Claim C3 counterexample: the per-item flags are not captured before
iteration begins.  Over a two-model source, pulling the first answer set with
every flag clear and then enabling `first_arg_only` before the second pull
yields a different traversal than leaving the flags untouched: the generator
re-reads `self._first_arg_only` for every answer set. -/
theorem flags_not_captured_cex :
    runTraversal id id [[(0, [1, 2])], [(0, [1, 2])]]
        (fun k => if k = 0 then {} else { first_arg_only := true }) ≠
      runTraversal id id [[(0, [1, 2])], [(0, [1, 2])]] (fun _ => {}) := by
  decide

/-- Claim C3, amended: only the `sorted` flag is captured when the traversal
pulls its first answer set (through the one-time binding of `builder`);
`first_arg_only`, `by_predicate` and `as_pyasp` are read afresh for each
answer set, so a traversal's output depends exactly on the `sorted` value at
the first pull and the per-pull values of the other three flags — mutations
of `sorted` after iteration has begun have no effect, while mutations of the
other flags affect precisely the answer sets pulled after them. -/
theorem flags_capture_amended
    (shE : List Elem → List Elem) (shB : List BElem → List BElem)
    (raws : List RawAnswerSet) (f g : Nat → Flags)
    (hs : (f 0).sorted = (g 0).sorted)
    (hf : ∀ k, (f k).first_arg_only = (g k).first_arg_only)
    (hg : ∀ k, (f k).group_atoms = (g k).group_atoms)
    (hp : ∀ k, (f k).as_pyasp = (g k).as_pyasp) :
    runTraversal shE shB raws f = runTraversal shE shB raws g := by
  have main : ∀ (c : Bool) (k : Nat) (rs : List RawAnswerSet),
      runFrom shE shB c f k rs = runFrom shE shB c g k rs := by
    intro c k rs
    induction rs generalizing k with
    | nil => rfl
    | cons r rest ih =>
      rw [runFrom, runFrom, hf k, hg k, hp k, ih (k + 1)]
  rw [runTraversal, runTraversal, hs, main]

/-- Claim C3 amended-theorem witness: mutating `sorted` after the first pull
leaves the traversal unchanged. -/
theorem flags_capture_amended_witness :
    runTraversal id id [[(0, [1])], [(0, [2])]]
        (fun k => if k = 0 then {} else { sorted := true }) =
      runTraversal id id [[(0, [1])], [(0, [2])]] (fun _ => {}) :=
  flags_capture_amended id id [[(0, [1])], [(0, [2])]]
    (fun k => if k = 0 then {} else { sorted := true }) (fun _ => {})
    rfl (fun k => by cases k <;> rfl) (fun k => by cases k <;> rfl)
    (fun k => by cases k <;> rfl)

/-- Claim C5: the underlying source is consumed at most once — a complete
traversal leaves the stored iterator empty, and a second independent
traversal after exhaustion yields the empty sequence, so no answer set is
delivered twice across traversals. -/
theorem source_consumed_once (shE : List Elem → List Elem)
    (shB : List BElem → List BElem) (s : Answers) :
    (s.iterAll shE shB).2.answers = [] ∧
    ((s.iterAll shE shB).2.iterAll shE shB).1 = [] :=
  ⟨rfl, rfl⟩

/-- Claim C7: `__next__` is sugar over starting a fresh traversal and taking
its first element — it returns exactly the transformed answer set a fresh
traversal would yield first, and signals end-of-iteration (`none`) exactly
when a fresh traversal would yield nothing. -/
theorem next_is_first_of_fresh_traversal (shE : List Elem → List Elem)
    (shB : List BElem → List BElem) (s : Answers) :
    (s.nextAnswer shE shB).map Prod.fst = (s.iterAll shE shB).1.head? ∧
    (s.nextAnswer shE shB = none ↔ (s.iterAll shE shB).1 = []) := by
  obtain ⟨ans, fl⟩ := s
  cases ans <;> simp [Answers.nextAnswer, Answers.iterAll]

/-- Claim C9: configuration is idempotent — setting any of the four toggles
twice leaves the transformer in the same state as setting it once, and every
subsequent traversal produces identical output in both cases. -/
theorem configuration_idempotent (s : Answers) :
    s.first_arg_only.first_arg_only = s.first_arg_only ∧
    s.by_predicate.by_predicate = s.by_predicate ∧
    s.as_pyasp.as_pyasp = s.as_pyasp ∧
    s.sorted.sorted = s.sorted ∧
    ∀ (shE : List Elem → List Elem) (shB : List BElem → List BElem),
      s.first_arg_only.first_arg_only.iterAll shE shB =
        s.first_arg_only.iterAll shE shB ∧
      s.by_predicate.by_predicate.iterAll shE shB = s.by_predicate.iterAll shE shB ∧
      s.as_pyasp.as_pyasp.iterAll shE shB = s.as_pyasp.iterAll shE shB ∧
      s.sorted.sorted.iterAll shE shB = s.sorted.iterAll shE shB :=
  ⟨rfl, rfl, rfl, rfl, fun _ _ => ⟨rfl, rfl, rfl, rfl⟩⟩

/-- The first-argument representation is a single value exactly for
non-empty argument lists beginning with that value. -/
lemma firstArgRep_eq_one {args : List Nat} {a : Nat} :
    firstArgRep args = ArgRep.one a ↔ ∃ rest, args = a :: rest := by
  cases args <;> simp [firstArgRep]

/-- The first-argument representation is the empty-tuple marker exactly for
the empty argument list. -/
lemma firstArgRep_eq_marker {args : List Nat} :
    firstArgRep args = ArgRep.tup [] ↔ args = [] := by
  cases args <;> simp [firstArgRep]

/-- Claim C1: under `by_predicate` (with `as_pyasp` off), each answer set
becomes a mapping whose keys are exactly the predicates occurring in the raw
answer set — a predicate with no atom is absent, not mapped to an empty
value — and whose value at `p` holds exactly the argument representations of
the atoms with predicate `p`. -/
theorem by_predicate_grouping_complete
    (shE : List Elem → List Elem) (shB : List BElem → List BElem)
    (hE : ∀ l, (shE l).Perm l) (hB : ∀ l, (shB l).Perm l)
    (s fao : Bool) (raw : RawAnswerSet) :
    ∃ M, transformOne shE shB s fao true false raw = Out.dict M ∧
      (∀ p, (alookup p M).isSome ↔ ∃ pa ∈ raw, pa.1 = p) ∧
      (∀ p bs, alookup p M = some bs →
        ∀ b, b ∈ bs ↔ ∃ pa ∈ raw, pa.1 = p ∧ b = BElem.rep (repOfRaw fao pa.2)) := by
  rcases transform_dict_char shE shB hE hB s fao false raw with ⟨M, hM, h1, h2⟩
  refine ⟨M, hM, h1, fun p bs hbs b => ?_⟩
  rw [h2 p bs hbs b]
  simp [bwrapRaw]

/-- Claim C1 witness: the statement at the identity shuffles on a concrete
answer set with two predicates. -/
theorem by_predicate_grouping_complete_witness :
    ∃ M, transformOne id id false false true false [(0, [1]), (0, [2]), (3, [])] =
        Out.dict M ∧
      (∀ p, (alookup p M).isSome ↔
        ∃ pa ∈ [((0 : Nat), [1]), (0, [2]), (3, ([] : List Nat))], pa.1 = p) ∧
      (∀ p bs, alookup p M = some bs →
        ∀ b, b ∈ bs ↔ ∃ pa ∈ [((0 : Nat), [1]), (0, [2]), (3, ([] : List Nat))],
          pa.1 = p ∧ b = BElem.rep (repOfRaw false pa.2)) :=
  by_predicate_grouping_complete id id (fun l => List.Perm.refl l)
    (fun l => List.Perm.refl l) false false [(0, [1]), (0, [2]), (3, [])]

/-- Claim C2: under `first_arg_only`, an atom with a non-empty argument list
appears as its predicate paired with the first argument alone, an atom with
no arguments appears as its predicate paired with the empty-tuple marker
`()`, and a zero-argument atom `q()` is thereby distinguishable from `q`
being wholly absent: a predicate occurs in the output exactly when some atom
with that predicate is in the raw answer set. -/
theorem first_arg_only_round_trip
    (shE : List Elem → List Elem) (shB : List BElem → List BElem)
    (hE : ∀ l, (shE l).Perm l) (s : Bool) (raw : RawAnswerSet) :
    ∃ L, transformOne shE shB s true false false raw = Out.coll L ∧
      (∀ p a, Elem.pair p (ArgRep.one a) ∈ L ↔ ∃ rest, (p, a :: rest) ∈ raw) ∧
      (∀ q, Elem.pair q (ArgRep.tup []) ∈ L ↔ (q, ([] : List Nat)) ∈ raw) ∧
      (∀ q, (∃ e ∈ L, e.predOf = q) ↔ ∃ args, (q, args) ∈ raw) := by
  rcases transform_coll_char shE shB hE s true false raw with ⟨L, hL, hmem⟩
  have hmem' : ∀ e, e ∈ L ↔ ∃ pa ∈ raw, e = Elem.pair pa.1 (firstArgRep pa.2) := by
    intro e
    rw [hmem e]
    simp [topElem, repOfRaw]
  refine ⟨L, hL, ?_, ?_, ?_⟩
  · intro p a
    rw [hmem']
    constructor
    · rintro ⟨⟨p', args'⟩, hin, heq⟩
      simp only [Elem.pair.injEq] at heq
      obtain ⟨rfl, hr⟩ := heq
      rcases firstArgRep_eq_one.mp hr.symm with ⟨rest, hrest⟩
      exact ⟨rest, by rw [← hrest]; exact hin⟩
    · rintro ⟨rest, hin⟩
      exact ⟨(p, a :: rest), hin, rfl⟩
  · intro q
    rw [hmem']
    constructor
    · rintro ⟨⟨p', args'⟩, hin, heq⟩
      simp only [Elem.pair.injEq] at heq
      obtain ⟨rfl, hr⟩ := heq
      have : args' = [] := firstArgRep_eq_marker.mp hr.symm
      rw [← this]
      exact hin
    · intro hin
      exact ⟨(q, []), hin, rfl⟩
  · intro q
    constructor
    · rintro ⟨e, heL, hq⟩
      rcases (hmem' e).mp heL with ⟨⟨p', args'⟩, hin, rfl⟩
      exact ⟨args', by rw [← hq]; exact hin⟩
    · rintro ⟨args, hin⟩
      exact ⟨Elem.pair q (firstArgRep args), (hmem' _).mpr ⟨(q, args), hin, rfl⟩, rfl⟩

/-- Claim C2 witness: the statement at the identity shuffles on a concrete
answer set holding a multi-argument atom and a zero-argument atom. -/
theorem first_arg_only_round_trip_witness :
    ∃ L, transformOne id id false true false false [(0, [1, 2, 3]), (4, [])] =
        Out.coll L ∧
      (∀ p a, Elem.pair p (ArgRep.one a) ∈ L ↔
        ∃ rest, (p, a :: rest) ∈ [((0 : Nat), [1, 2, 3]), (4, ([] : List Nat))]) ∧
      (∀ q, Elem.pair q (ArgRep.tup []) ∈ L ↔
        (q, ([] : List Nat)) ∈ [((0 : Nat), [1, 2, 3]), (4, ([] : List Nat))]) ∧
      (∀ q, (∃ e ∈ L, e.predOf = q) ↔
        ∃ args, (q, args) ∈ [((0 : Nat), [1, 2, 3]), (4, ([] : List Nat))]) :=
  first_arg_only_round_trip id id (fun l => List.Perm.refl l) false
    [(0, [1, 2, 3]), (4, [])]

/-- Claim C4: when `as_pyasp` and `by_predicate` are both enabled, wrapping
is applied inside each predicate's bucket — every bucket member is the value
object carrying that bucket's predicate and an argument representation of a
matching atom; when grouping is inactive, the `(predicate, arguments)` pair
itself is wrapped at the top level of the answer set. -/
theorem as_pyasp_wrapping_location
    (shE : List Elem → List Elem) (shB : List BElem → List BElem)
    (hE : ∀ l, (shE l).Perm l) (hB : ∀ l, (shB l).Perm l)
    (s fao : Bool) (raw : RawAnswerSet) :
    (∃ M, transformOne shE shB s fao true true raw = Out.dict M ∧
      ∀ p bs, alookup p M = some bs →
        ∀ b, b ∈ bs ↔ ∃ pa ∈ raw, pa.1 = p ∧ b = BElem.obj p (repOfRaw fao pa.2)) ∧
    (∃ L, transformOne shE shB s fao false true raw = Out.coll L ∧
      ∀ e, e ∈ L ↔ ∃ pa ∈ raw, e = Elem.obj pa.1 (repOfRaw fao pa.2)) := by
  constructor
  · rcases transform_dict_char shE shB hE hB s fao true raw with ⟨M, hM, h1, h2⟩
    refine ⟨M, hM, fun p bs hbs b => ?_⟩
    rw [h2 p bs hbs b]
    simp [bwrapRaw]
  · rcases transform_coll_char shE shB hE s fao true raw with ⟨L, hL, hmem⟩
    refine ⟨L, hL, fun e => ?_⟩
    rw [hmem e]
    simp [topElem]

/-- Claim C4 witness: the statement at the identity shuffles on a concrete
answer set. -/
theorem as_pyasp_wrapping_location_witness :
    (∃ M, transformOne id id false false true true [(0, [1]), (2, [3])] =
        Out.dict M ∧
      ∀ p bs, alookup p M = some bs →
        ∀ b, b ∈ bs ↔ ∃ pa ∈ [((0 : Nat), [1]), (2, [3])],
          pa.1 = p ∧ b = BElem.obj p (repOfRaw false pa.2)) ∧
    (∃ L, transformOne id id false false false true [(0, [1]), (2, [3])] =
        Out.coll L ∧
      ∀ e, e ∈ L ↔ ∃ pa ∈ [((0 : Nat), [1]), (2, [3])],
        e = Elem.obj pa.1 (repOfRaw false pa.2)) :=
  as_pyasp_wrapping_location id id (fun l => List.Perm.refl l)
    (fun l => List.Perm.refl l) false false [(0, [1]), (2, [3])]

/-- Claim C6: with `sorted` enabled, two traversals over equal inputs with
equal flag configurations produce identical, deterministically ordered
output, whatever the frozenset hash orders of the two runs; the top-level
container is the sorted tuple (a list sorted by the element comparison) and,
under `by_predicate`, each bucket is a sorted tuple as well.  Without
`sorted`, the outputs of two such runs are set-equal, with no element order
asserted. -/
theorem sorted_determinism
    (shE shE' : List Elem → List Elem) (shB shB' : List BElem → List BElem)
    (hE : ∀ l, (shE l).Perm l) (hB : ∀ l, (shB l).Perm l)
    (hE' : ∀ l, (shE' l).Perm l) (hB' : ∀ l, (shB' l).Perm l)
    (fao group pyasp : Bool) (raw : RawAnswerSet) :
    transformOne shE shB true fao group pyasp raw =
      transformOne shE' shB' true fao group pyasp raw ∧
    OutSetEq (transformOne shE shB false fao group pyasp raw)
      (transformOne shE' shB' false fao group pyasp raw) ∧
    (∃ L, transformOne shE shB true fao false pyasp raw = Out.coll L ∧
      L.Sorted (fun a b => Elem.ble a b = true)) ∧
    (∃ M, transformOne shE shB true fao true pyasp raw = Out.dict M ∧
      ∀ p bs, alookup p M = some bs →
        bs.Sorted (fun a b => BElem.ble a b = true)) := by
  refine ⟨?_, ?_, ?_, ?_⟩
  · simp only [transformOne, builder_true]
  · cases group with
    | true =>
      rcases transform_dict_char shE shB hE hB false fao pyasp raw with ⟨M, hM, k1, k2⟩
      rcases transform_dict_char shE' shB' hE' hB' false fao pyasp raw with
        ⟨M', hM', k1', k2'⟩
      rw [hM, hM']
      refine ⟨fun p => (k1 p).trans (k1' p).symm, fun p bs bs' h h' b => ?_⟩
      rw [k2 p bs h b, k2' p bs' h' b]
    | false =>
      rcases transform_coll_char shE shB hE false fao pyasp raw with ⟨L, hL, m1⟩
      rcases transform_coll_char shE' shB' hE' false fao pyasp raw with ⟨L', hL', m1'⟩
      rw [hL, hL']
      intro e
      rw [m1 e, m1' e]
  · cases pyasp with
    | false => exact ⟨_, rfl, sorted_builder_true shE Elem.ble _⟩
    | true => exact ⟨_, rfl, sorted_builder_true shE Elem.ble _⟩
  · refine ⟨_, rfl, fun p bs hbs => ?_⟩
    rw [alookup_map] at hbs
    rcases Option.map_eq_some'.mp hbs with ⟨bs₀, hbs₀, rfl⟩
    exact sorted_builder_true shB BElem.ble bs₀

/-- Claim C6 witness: the statement at the identity shuffles on a concrete
answer set. -/
theorem sorted_determinism_witness :
    transformOne id id true false false false [(0, [2, 1]), (3, [])] =
      transformOne id id true false false false [(0, [2, 1]), (3, [])] ∧
    OutSetEq (transformOne id id false false false false [(0, [2, 1]), (3, [])])
      (transformOne id id false false false false [(0, [2, 1]), (3, [])]) ∧
    (∃ L, transformOne id id true false false false [(0, [2, 1]), (3, [])] =
        Out.coll L ∧ L.Sorted (fun a b => Elem.ble a b = true)) ∧
    (∃ M, transformOne id id true false true false [(0, [2, 1]), (3, [])] =
        Out.dict M ∧
      ∀ p bs, alookup p M = some bs →
        bs.Sorted (fun a b => BElem.ble a b = true)) :=
  sorted_determinism id id id id (fun l => List.Perm.refl l)
    (fun l => List.Perm.refl l) (fun l => List.Perm.refl l)
    (fun l => List.Perm.refl l) false false false [(0, [2, 1]), (3, [])]

end Clyngor
